import Mathlib

/-!
# A bounded-queue worker thread pool (`pthread_pool.c`)

Shallow embedding of `src/pthread_pool.c`.

* The header `pthread_pool.h` is not part of the sources, so every macro or
  enumerator it declares (`POOL_MAXBSIZE`, `POOL_WAIT`, `ON`, ...) is a field of
  the parameter record `Header`; nothing is assumed about their values except
  where a theorem lists a distinctness hypothesis.
* The pool record carries the scalar fields of `pthread_pool_t`, the contents
  of the block `pool->q` points to (`q`, indexed by slot) and the two pointer
  values themselves (`q_ptr`, `bee_ptr`, `0` is `NULL`).
* Indices and sizes are natural numbers: every index the code computes is
  below `2 * q_size`, and `q_size` is bounded by the header's two maxima.
* Each region of code that runs with `pool->mutex` held is one function; a
  thread that reaches `pthread_cond_wait` ends its region with the result
  `waiting` and starts a new region (`*_wakeup`) when the wait returns.
* `step` interleaves these regions for any number of submitting threads, the
  pool's workers and callers of shutdown.
-/

namespace PthreadPool

/-! ## Data model -/

/-- Constants declared by `pthread_pool.h`. -/
structure Header where
  POOL_MAXBSIZE : Nat
  POOL_MAXQSIZE : Nat
  POOL_WAIT : Int
  POOL_NOWAIT : Int
  POOL_COMPLETE : Int
  POOL_DISCARD : Int
  POOL_SUCCESS : Int
  POOL_FAIL : Int
  POOL_FULL : Int
  ON : Int
  OFF : Int
  STANDBY : Int
deriving DecidableEq, Repr

/-- A queued task: the address of the function (`0` is `NULL`) and its argument. -/
structure task_t where
  function : Nat
  param : Nat
deriving DecidableEq, Repr

/-- The fields of `pthread_pool_t` the code reads and writes. -/
structure pthread_pool_t where
  state : Int
  q_ptr : Nat
  q : Nat → task_t
  q_size : Nat
  q_front : Nat
  q_len : Nat
  bee_ptr : Nat
  bee_size : Nat

/-- Store `t` in slot `i` of a buffer. -/
def setSlot (q : Nat → task_t) (i : Nat) (t : task_t) : Nat → task_t :=
  fun j => if j = i then t else q j

/-- The logical contents of the queue: slots `q[(q_front + i) % q_size]`
for `i = 0 .. q_len - 1`. -/
def contents (pool : pthread_pool_t) : List task_t :=
  (List.range pool.q_len).map (fun i => pool.q ((pool.q_front + i) % pool.q_size))

/-! ## `pthread_pool_submit` -/

/-- How a region of `pthread_pool_submit` ends. -/
inductive SubmitResult where
  | returned (code : Int)
  | waiting
deriving DecidableEq, Repr

/-- Lines 142-145: write the task at the rear slot and count it. -/
def enqueue (pool : pthread_pool_t) (f p : Nat) : pthread_pool_t :=
  let q_rear := (pool.q_front + pool.q_len) % pool.q_size
  { pool with q := setSlot pool.q q_rear ⟨f, p⟩, q_len := pool.q_len + 1 }

/-- Lines 133-148, entered at the test of the `while` loop (on first entry and
each time `pthread_cond_wait(&pool->empty, ...)` returns). -/
def submit_wakeup (H : Header) (pool : pthread_pool_t) (f p : Nat) :
    pthread_pool_t × SubmitResult :=
  if pool.q_len = pool.q_size then (pool, .waiting)
  else if pool.state ≠ H.ON then (pool, .returned H.POOL_FAIL)
  else (enqueue pool f p, .returned H.POOL_SUCCESS)

/-- Lines 127-148: the region that starts when the mutex is acquired. -/
def submit_locked (H : Header) (pool : pthread_pool_t) (f p : Nat) (flag : Int) :
    pthread_pool_t × SubmitResult :=
  if pool.q_len = pool.q_size then
    if flag ≠ H.POOL_WAIT then (pool, .returned H.POOL_FULL)
    else submit_wakeup H pool f p
  else (enqueue pool f p, .returned H.POOL_SUCCESS)

/-- Lines 122-149 when no other thread runs between the read of `state` on
line 124 and the acquisition of the mutex on line 127. -/
def pthread_pool_submit (H : Header) (pool : pthread_pool_t) (f p : Nat) (flag : Int) :
    pthread_pool_t × SubmitResult :=
  if pool.state ≠ H.ON then (pool, .returned H.POOL_FAIL)
  else submit_locked H pool f p flag

/-! ## `worker` -/

/-- How a locked region of `worker` ends. -/
inductive WorkerResult where
  | exited
  | waiting
  | again
  | took (t : task_t)
deriving DecidableEq, Repr

/-- Lines 35-36: advance the front cursor and count the task out. -/
def dequeue (pool : pthread_pool_t) : pthread_pool_t :=
  { pool with q_front := (pool.q_front + 1) % pool.q_size, q_len := pool.q_len - 1 }

/-- Lines 27-38, entered at the test of the `while` loop (on first entry and
each time `pthread_cond_wait(&pool->full, ...)` returns). -/
def worker_wakeup (H : Header) (pool : pthread_pool_t) : pthread_pool_t × WorkerResult :=
  if pool.q_len = 0 ∧ pool.state = H.ON then (pool, .waiting)
  else if pool.q_len = 0 then (pool, .again)
  else (dequeue pool, .took (pool.q pool.q_front))

/-- Lines 22-38: one iteration of the worker loop from the acquisition of the mutex. -/
def worker_locked (H : Header) (pool : pthread_pool_t) : pthread_pool_t × WorkerResult :=
  if pool.q_len = 0 ∧ pool.state ≠ H.ON then (pool, .exited)
  else worker_wakeup H pool

/-! ## `pthread_pool_shutdown` -/

/-- How the first locked region of `pthread_pool_shutdown` ends. -/
inductive ShutdownResult where
  | returned (code : Int)
  | joining
deriving DecidableEq, Repr

/-- Lines 162-182. -/
def shutdown_locked (H : Header) (pool : pthread_pool_t) (how : Int) :
    pthread_pool_t × ShutdownResult :=
  if pool.state = H.OFF then (pool, .returned H.POOL_FAIL)
  else if how = H.POOL_COMPLETE then ({ pool with state := H.STANDBY }, .joining)
  else if how = H.POOL_DISCARD then
    ({ pool with q_len := 0, q_front := 0, state := H.OFF }, .joining)
  else (pool, .returned H.POOL_FAIL)

/-- Lines 186-196, after every worker has been joined. -/
def shutdown_finish (H : Header) (pool : pthread_pool_t) : pthread_pool_t × Int :=
  ({ pool with state := H.OFF, q_ptr := 0, bee_ptr := 0 }, H.POOL_SUCCESS)

/-- Lines 160-197. `joined` is what the other threads did to the pool between
the release of the mutex on line 182 and its acquisition on line 186, while
the caller was in `pthread_join`. -/
def pthread_pool_shutdown (H : Header) (pool : pthread_pool_t) (how : Int)
    (joined : pthread_pool_t → pthread_pool_t) : pthread_pool_t × Int :=
  match shutdown_locked H pool how with
  | (pool1, .returned code) => (pool1, code)
  | (pool1, .joining) => shutdown_finish H (joined pool1)

/-! ## `pthread_pool_init` -/

/-- Calls into the C library made by `pthread_pool_init`. -/
inductive Effect where
  | malloc_q (slots : Nat)
  | malloc_bee (slots : Nat)
  | free_q
  | free_bee
  | mutex_init
  | mutex_destroy
  | cond_init_full
  | cond_init_empty
  | cond_destroy_full
  | cond_destroy_empty
  | create (i : Nat)
  | join (i : Nat)
deriving DecidableEq, Repr

/-- What the C library answers to `pthread_pool_init`. -/
structure Env where
  malloc_q : Nat
  q_block : Nat → task_t
  malloc_bee : Nat
  mutex_init : Int
  cond_init_full : Int
  cond_init_empty : Int
  pthread_create : Nat → Int

/-- The result of `pthread_pool_init`: return value, pool, library calls made. -/
structure InitResult where
  ret : Int
  pool : pthread_pool_t
  effects : List Effect

/-- Lines 98-111, the loop test and body from index `i` with `n` indices left:
the index of the first `pthread_create` that fails, if any. -/
def create_loop (E : Env) : Nat → Nat → Option Nat
  | 0, _ => none
  | n + 1, i => if E.pthread_create i ≠ 0 then some i else create_loop E n (i + 1)

/-- Lines 58-114. -/
def pthread_pool_init (H : Header) (E : Env) (pool : pthread_pool_t)
    (bee_size queue_size : Nat) : InitResult :=
  if bee_size > H.POOL_MAXBSIZE ∨ queue_size > H.POOL_MAXQSIZE then
    ⟨H.POOL_FAIL, pool, []⟩
  else
    let queue_size := if bee_size > queue_size then bee_size else queue_size
    let pool := { pool with
      bee_size := bee_size, q_size := queue_size, q_front := 0, q_len := 0,
      state := H.ON, q_ptr := E.malloc_q, q := E.q_block }
    let e1 := [Effect.malloc_q queue_size]
    if E.malloc_q = 0 then ⟨H.POOL_FAIL, pool, e1⟩
    else
      let pool := { pool with bee_ptr := E.malloc_bee }
      let e2 := e1 ++ [Effect.malloc_bee bee_size]
      if E.malloc_bee = 0 then ⟨H.POOL_FAIL, pool, e2 ++ [Effect.free_q]⟩
      else
        let e3 := e2 ++ [Effect.mutex_init]
        if E.mutex_init ≠ 0 then ⟨H.POOL_FAIL, pool, e3 ++ [Effect.free_q, Effect.free_bee]⟩
        else
          let e4 := e3 ++ [Effect.cond_init_full]
          if E.cond_init_full ≠ 0 then
            ⟨H.POOL_FAIL, pool, e4 ++ [Effect.mutex_destroy, Effect.free_q, Effect.free_bee]⟩
          else
            let e5 := e4 ++ [Effect.cond_init_empty]
            if E.cond_init_empty ≠ 0 then
              ⟨H.POOL_FAIL, pool, e5 ++ [Effect.cond_destroy_full, Effect.mutex_destroy,
                Effect.free_q, Effect.free_bee]⟩
            else
              match create_loop E bee_size 0 with
              | some i =>
                ⟨H.POOL_FAIL, { pool with state := H.OFF },
                  e5 ++ (List.range (i + 1)).map Effect.create ++ (List.range i).map Effect.join
                    ++ [Effect.mutex_destroy, Effect.cond_destroy_full,
                      Effect.cond_destroy_empty, Effect.free_q, Effect.free_bee]⟩
              | none => ⟨H.POOL_SUCCESS, pool, e5 ++ (List.range bee_size).map Effect.create⟩

/-! ## Interleavings -/

/-- Where a worker thread is. -/
inductive WPc where
  | top
  | waiting
  | exited
deriving DecidableEq, Repr

/-- Where a call of `pthread_pool_submit` is. -/
inductive CPc where
  | atLock
  | waiting
  | done (code : Int)
deriving DecidableEq, Repr

/-- A call of `pthread_pool_submit` that has executed line 124. -/
structure Call where
  f : Nat
  p : Nat
  flag : Int
  pc : CPc
deriving DecidableEq, Repr

/-- The pool, its threads, and two logs: `submitted` lists the tasks of the calls
that returned `POOL_SUCCESS`, in the order of their return; `dequeued` lists the
tasks taken by workers with the index of the worker, in the order taken. -/
structure Sys where
  pool : pthread_pool_t
  bees : List WPc
  calls : List Call
  joiners : Nat
  submitted : List task_t
  dequeued : List (Nat × task_t)

/-- The atomic steps of the threads. -/
inductive Action where
  | submit_call (f p : Nat) (flag : Int)
  | submit_lock (i : Nat)
  | submit_wake (i : Nat)
  | worker_lock (w : Nat)
  | worker_wake (w : Nat)
  | shutdown_call (how : Int)
  | shutdown_join
deriving DecidableEq, Repr

/-- The program counter a submit region's result leaves its call at. -/
def SubmitResult.pc : SubmitResult → CPc
  | .returned code => .done code
  | .waiting => .waiting

/-- Record the outcome of a submit region run by call `i`. -/
def submit_apply (H : Header) (s : Sys) (i : Nat) (c : Call)
    (r : pthread_pool_t × SubmitResult) : Sys :=
  { s with
    pool := r.1
    calls := s.calls.set i { c with pc := r.2.pc }
    submitted :=
      if r.2 = .returned H.POOL_SUCCESS then s.submitted ++ [⟨c.f, c.p⟩] else s.submitted }

/-- Record the outcome of a worker region run by worker `w`. -/
def worker_apply (s : Sys) (w : Nat) (r : pthread_pool_t × WorkerResult) : Sys :=
  match r.2 with
  | .exited => { s with pool := r.1, bees := s.bees.set w .exited }
  | .waiting => { s with pool := r.1, bees := s.bees.set w .waiting }
  | .again => { s with pool := r.1, bees := s.bees.set w .top }
  | .took t =>
    { s with pool := r.1, bees := s.bees.set w .top, dequeued := s.dequeued ++ [(w, t)] }

/-- One atomic step; `none` when the thread named by the action is not at the
point the action starts from.
* `submit_call`: a new call executes line 124.
* `submit_lock i`: call `i` acquires the mutex and runs lines 127-148.
* `submit_wake i`: the wait of call `i` on line 134 returns.
* `worker_lock w`: worker `w` acquires the mutex on line 22.
* `worker_wake w`: the wait of worker `w` on line 28 returns.
* `shutdown_call`: a call of shutdown runs lines 162-182.
* `shutdown_join`: a call of shutdown whose joins have all returned runs lines 186-196. -/
def step (H : Header) (s : Sys) : Action → Option Sys
  | .submit_call f p flag =>
    if s.pool.state ≠ H.ON then
      some { s with calls := s.calls ++ [⟨f, p, flag, .done H.POOL_FAIL⟩] }
    else some { s with calls := s.calls ++ [⟨f, p, flag, .atLock⟩] }
  | .submit_lock i =>
    match s.calls[i]? with
    | some c =>
      if c.pc = .atLock then some (submit_apply H s i c (submit_locked H s.pool c.f c.p c.flag))
      else none
    | none => none
  | .submit_wake i =>
    match s.calls[i]? with
    | some c =>
      if c.pc = .waiting then some (submit_apply H s i c (submit_wakeup H s.pool c.f c.p))
      else none
    | none => none
  | .worker_lock w =>
    match s.bees[w]? with
    | some .top => some (worker_apply s w (worker_locked H s.pool))
    | _ => none
  | .worker_wake w =>
    match s.bees[w]? with
    | some .waiting => some (worker_apply s w (worker_wakeup H s.pool))
    | _ => none
  | .shutdown_call how =>
    match shutdown_locked H s.pool how with
    | (pool1, .joining) => some { s with pool := pool1, joiners := s.joiners + 1 }
    | (pool1, .returned _) => some { s with pool := pool1 }
  | .shutdown_join =>
    if 0 < s.joiners ∧ s.bees.all (· = .exited) then
      some { s with pool := (shutdown_finish H s.pool).1, joiners := s.joiners - 1 }
    else none

/-- Run a sequence of steps. -/
def run (H : Header) (s : Sys) : List Action → Option Sys
  | [] => some s
  | a :: as => (step H s a).bind (fun s1 => run H s1 as)

/-- The system right after `pthread_pool_init` returned `pool`: every worker
is at the top of its loop and nothing has been submitted. -/
def boot (pool : pthread_pool_t) : Sys :=
  ⟨pool, List.replicate pool.bee_size .top, [], 0, [], []⟩

/-- A header with pairwise distinct values, for evaluating the definitions. -/
def hdr : Header :=
  { POOL_MAXBSIZE := 8, POOL_MAXQSIZE := 16, POOL_WAIT := 1, POOL_NOWAIT := 0,
    POOL_COMPLETE := 1, POOL_DISCARD := 0, POOL_SUCCESS := 0, POOL_FAIL := -1,
    POOL_FULL := 1, ON := 1, OFF := 0, STANDBY := 2 }

/-- A buffer whose slots all hold the null task. -/
def blank : Nat → task_t := fun _ => ⟨0, 0⟩

/-- A library in which every call succeeds. -/
def okEnv : Env :=
  { malloc_q := 4096, q_block := blank, malloc_bee := 8192, mutex_init := 0,
    cond_init_full := 0, cond_init_empty := 0, pthread_create := fun _ => 0 }

/-- An uninitialised pool object. -/
def rawPool : pthread_pool_t :=
  { state := 7, q_ptr := 0, q := blank, q_size := 0, q_front := 0, q_len := 0,
    bee_ptr := 0, bee_size := 0 }

/-- One worker, one slot. -/
def pool11 : pthread_pool_t := (pthread_pool_init hdr okEnv rawPool 1 1).pool

/-- No worker, one slot. -/
def pool01 : pthread_pool_t := (pthread_pool_init hdr okEnv rawPool 0 1).pool

/-- Two workers, three slots. -/
def pool23 : pthread_pool_t := (pthread_pool_init hdr okEnv rawPool 2 3).pool

/-- Every `submit_lock` step of the run is taken while `state` is `ON`: no call
acquires the mutex on line 127 after the pool left `ON`. -/
def locksWhileOn (H : Header) (s : Sys) : List Action → Bool
  | [] => true
  | a :: as =>
    (match a with
      | .submit_lock _ => decide (s.pool.state = H.ON)
      | _ => true) &&
    (match step H s a with
      | some s1 => locksWhileOn H s1 as
      | none => true)

/-- The tasks of a dequeue log. -/
def tasksOf (d : List (Nat × task_t)) : List task_t := d.map Prod.snd

/-- Cursor bounds of the circular buffer: `q_len <= q_size` and `q_front < q_size`. -/
def WF (pool : pthread_pool_t) : Prop :=
  pool.q_len ≤ pool.q_size ∧ pool.q_front < pool.q_size

/-- The tasks dequeued so far followed by the tasks in the queue are the tasks
submitted so far. -/
def LogInv (s : Sys) : Prop :=
  tasksOf s.dequeued ++ contents s.pool = s.submitted

/-- Once a worker has exited the pool is no longer `ON`, and once all workers
of a pool that has workers have exited the queue is empty. -/
def Drained (H : Header) (s : Sys) : Prop :=
  (WPc.exited ∈ s.bees → s.pool.state ≠ H.ON) ∧
  (s.bees ≠ [] → (∀ w ∈ s.bees, w = WPc.exited) → s.pool.q_len = 0)

/-! ## Theorems -/

/-! ### `pthread_pool_init` -/

/-- The fields of the pool a successful `pthread_pool_init` returns, and the
bounds its arguments met. -/
theorem init_success_fields (H : Header) (E : Env) (pool : pthread_pool_t)
    (bee_size queue_size : Nat) (hsf : H.POOL_SUCCESS ≠ H.POOL_FAIL)
    (hret : (pthread_pool_init H E pool bee_size queue_size).ret = H.POOL_SUCCESS) :
    bee_size ≤ H.POOL_MAXBSIZE ∧ queue_size ≤ H.POOL_MAXQSIZE ∧
    (pthread_pool_init H E pool bee_size queue_size).pool.bee_size = bee_size ∧
    (pthread_pool_init H E pool bee_size queue_size).pool.q_size = max queue_size bee_size ∧
    (pthread_pool_init H E pool bee_size queue_size).pool.q_front = 0 ∧
    (pthread_pool_init H E pool bee_size queue_size).pool.q_len = 0 ∧
    (pthread_pool_init H E pool bee_size queue_size).pool.state = H.ON := by
  have hfs : H.POOL_FAIL ≠ H.POOL_SUCCESS := fun h => hsf h.symm
  have hmax : (if bee_size > queue_size then bee_size else queue_size) = max queue_size bee_size := by
    split
    · rw [max_eq_right (by omega)]
    · rw [max_eq_left (by omega)]
  unfold pthread_pool_init at hret ⊢
  split at hret
  · exact absurd hret hfs
  · rename_i hbound
    have hb : bee_size ≤ H.POOL_MAXBSIZE := by omega
    have hq : queue_size ≤ H.POOL_MAXQSIZE := by omega
    rw [if_neg hbound]
    simp only at hret ⊢
    split at hret
    · exact absurd hret hfs
    · rename_i h1
      rw [if_neg h1]
      split at hret
      · exact absurd hret hfs
      · rename_i h2
        rw [if_neg h2]
        split at hret
        · exact absurd hret hfs
        · rename_i h3
          rw [if_neg h3]
          split at hret
          · exact absurd hret hfs
          · rename_i h4
            rw [if_neg h4]
            split at hret
            · exact absurd hret hfs
            · rename_i h5
              rw [if_neg h5]
              split at hret
              · exact absurd hret hfs
              · exact ⟨hb, hq, rfl, hmax, rfl, rfl, rfl⟩

/-- C7 (clamp rule): when `bee_size <= POOL_MAXBSIZE`, `queue_size <= POOL_MAXQSIZE`
and `pthread_pool_init` returns `POOL_SUCCESS`, the pool has
`q_size = max(queue_size, bee_size)`, hence `q_size >= bee_size`, `bee_size` as
requested, `q_front = 0`, `q_len = 0` and `state = ON`. -/
theorem init_clamp (H : Header) (E : Env) (pool : pthread_pool_t)
    (bee_size queue_size : Nat) (hsf : H.POOL_SUCCESS ≠ H.POOL_FAIL)
    (_hb : bee_size ≤ H.POOL_MAXBSIZE) (_hq : queue_size ≤ H.POOL_MAXQSIZE)
    (hret : (pthread_pool_init H E pool bee_size queue_size).ret = H.POOL_SUCCESS) :
    (pthread_pool_init H E pool bee_size queue_size).pool.q_size = max queue_size bee_size ∧
    (pthread_pool_init H E pool bee_size queue_size).pool.bee_size ≤
      (pthread_pool_init H E pool bee_size queue_size).pool.q_size ∧
    (pthread_pool_init H E pool bee_size queue_size).pool.bee_size = bee_size ∧
    (pthread_pool_init H E pool bee_size queue_size).pool.q_front = 0 ∧
    (pthread_pool_init H E pool bee_size queue_size).pool.q_len = 0 ∧
    (pthread_pool_init H E pool bee_size queue_size).pool.state = H.ON := by
  obtain ⟨-, -, h1, h2, h3, h4, h5⟩ := init_success_fields H E pool bee_size queue_size hsf hret
  refine ⟨h2, ?_, h1, h3, h4, h5⟩
  rw [h1, h2]
  exact le_max_right _ _

/-- C7 at `init(bee_size = 5, queue_size = 2)`: the call succeeds and `q_size` is 5. -/
theorem init_clamp_witness :
    (pthread_pool_init hdr okEnv rawPool 5 2).ret = hdr.POOL_SUCCESS ∧
    (pthread_pool_init hdr okEnv rawPool 5 2).pool.q_size = 5 ∧
    (pthread_pool_init hdr okEnv rawPool 5 2).pool.state = hdr.ON :=
  have h := init_clamp hdr okEnv rawPool 5 2 (by decide) (by decide) (by decide) (by decide)
  ⟨by decide, h.1, h.2.2.2.2.2⟩

/-- C8 (init rejection): when `bee_size > POOL_MAXBSIZE` or
`queue_size > POOL_MAXQSIZE`, `pthread_pool_init` returns `POOL_FAIL`, leaves the
pool object as it was and makes no library call (no allocation, no mutex or
condition initialisation, no thread creation). -/
theorem init_reject (H : Header) (E : Env) (pool : pthread_pool_t)
    (bee_size queue_size : Nat)
    (h : bee_size > H.POOL_MAXBSIZE ∨ queue_size > H.POOL_MAXQSIZE) :
    (pthread_pool_init H E pool bee_size queue_size).ret = H.POOL_FAIL ∧
    (pthread_pool_init H E pool bee_size queue_size).pool = pool ∧
    (pthread_pool_init H E pool bee_size queue_size).effects = [] := by
  unfold pthread_pool_init
  rw [if_pos h]
  exact ⟨rfl, rfl, rfl⟩

/-- C8 at `init(POOL_MAXBSIZE + 1, 2)` and at `init(2, POOL_MAXQSIZE + 1)`. -/
theorem init_reject_witness :
    ((pthread_pool_init hdr okEnv rawPool 9 2).ret = hdr.POOL_FAIL ∧
      (pthread_pool_init hdr okEnv rawPool 9 2).pool = rawPool ∧
      (pthread_pool_init hdr okEnv rawPool 9 2).effects = []) ∧
    ((pthread_pool_init hdr okEnv rawPool 2 17).ret = hdr.POOL_FAIL ∧
      (pthread_pool_init hdr okEnv rawPool 2 17).pool = rawPool ∧
      (pthread_pool_init hdr okEnv rawPool 2 17).effects = []) :=
  ⟨init_reject hdr okEnv rawPool 9 2 (Or.inl (by decide)),
    init_reject hdr okEnv rawPool 2 17 (Or.inr (by decide))⟩

/-! ### Regions of `pthread_pool_submit`, `worker` and `pthread_pool_shutdown` -/

/-- A region of submit entered at line 127 leaves the pool as it was, or finds
`q_len != q_size`, enqueues and returns `POOL_SUCCESS`. -/
theorem submit_locked_cases (H : Header) (pool : pthread_pool_t) (f p : Nat) (flag : Int) :
    ((submit_locked H pool f p flag).1 = pool ∧
      ((submit_locked H pool f p flag).2 = .waiting ∨
        (submit_locked H pool f p flag).2 = .returned H.POOL_FULL ∨
        (submit_locked H pool f p flag).2 = .returned H.POOL_FAIL)) ∨
    (pool.q_len ≠ pool.q_size ∧
      submit_locked H pool f p flag = (enqueue pool f p, .returned H.POOL_SUCCESS)) := by
  unfold submit_locked submit_wakeup
  by_cases h : pool.q_len = pool.q_size
  · left
    by_cases hf : flag ≠ H.POOL_WAIT
    · simp [h, hf]
    · simp [h, hf]
  · right
    simp [h]

/-- A region of submit entered when the wait on line 134 returns leaves the
pool as it was, or finds `q_len != q_size` and `state == ON`, enqueues and
returns `POOL_SUCCESS`. -/
theorem submit_wakeup_cases (H : Header) (pool : pthread_pool_t) (f p : Nat) :
    ((submit_wakeup H pool f p).1 = pool ∧
      ((submit_wakeup H pool f p).2 = .waiting ∨
        (submit_wakeup H pool f p).2 = .returned H.POOL_FAIL)) ∨
    (pool.q_len ≠ pool.q_size ∧ pool.state = H.ON ∧
      submit_wakeup H pool f p = (enqueue pool f p, .returned H.POOL_SUCCESS)) := by
  unfold submit_wakeup
  by_cases h : pool.q_len = pool.q_size
  · left
    simp [h]
  · by_cases hs : pool.state = H.ON
    · right
      simp [h, hs]
    · left
      simp [h, hs]

/-- A worker region entered when the wait on line 28 returns leaves the pool as
it was and does not end the worker, or finds `q_len != 0` and dequeues. -/
theorem worker_wakeup_cases (H : Header) (pool : pthread_pool_t) :
    ((worker_wakeup H pool).1 = pool ∧
      (((worker_wakeup H pool).2 = .waiting ∧ pool.state = H.ON) ∨
        ((worker_wakeup H pool).2 = .again ∧ pool.q_len = 0 ∧ pool.state ≠ H.ON))) ∨
    (pool.q_len ≠ 0 ∧
      worker_wakeup H pool = (dequeue pool, .took (pool.q pool.q_front))) := by
  unfold worker_wakeup
  by_cases h : pool.q_len = 0
  · left
    by_cases hs : pool.state = H.ON
    · simp [h, hs]
    · simp [h, hs]
  · right
    simp [h]

/-- A worker iteration entered at line 22 ends the worker exactly when
`q_len == 0` and `state != ON`; otherwise it behaves as `worker_wakeup`, which
from there waits (`state == ON`, empty queue) or dequeues. -/
theorem worker_locked_cases (H : Header) (pool : pthread_pool_t) :
    (worker_locked H pool = (pool, .exited) ∧ pool.q_len = 0 ∧ pool.state ≠ H.ON) ∨
    (worker_locked H pool = (pool, .waiting) ∧ pool.q_len = 0 ∧ pool.state = H.ON) ∨
    (pool.q_len ≠ 0 ∧
      worker_locked H pool = (dequeue pool, .took (pool.q pool.q_front))) := by
  unfold worker_locked worker_wakeup
  by_cases h : pool.q_len = 0
  · by_cases hs : pool.state = H.ON
    · right; left
      simp [h, hs]
    · left
      simp [h, hs]
  · right; right
    simp [h]

/-- The first region of shutdown leaves the pool as it was and returns
`POOL_FAIL`, or sets `state` to `STANDBY`, or clears the queue and sets `state`
to `OFF`. -/
theorem shutdown_locked_cases (H : Header) (pool : pthread_pool_t) (how : Int) :
    (shutdown_locked H pool how = (pool, .returned H.POOL_FAIL) ∧
      (pool.state = H.OFF ∨ (how ≠ H.POOL_COMPLETE ∧ how ≠ H.POOL_DISCARD))) ∨
    (shutdown_locked H pool how = ({ pool with state := H.STANDBY }, .joining) ∧
      pool.state ≠ H.OFF ∧ how = H.POOL_COMPLETE) ∨
    (shutdown_locked H pool how =
        ({ pool with q_len := 0, q_front := 0, state := H.OFF }, .joining) ∧
      pool.state ≠ H.OFF ∧ how ≠ H.POOL_COMPLETE ∧ how = H.POOL_DISCARD) := by
  unfold shutdown_locked
  by_cases hs : pool.state = H.OFF
  · left
    simp [hs]
  · by_cases hc : how = H.POOL_COMPLETE
    · right; left
      simp [hs, hc]
    · by_cases hd : how = H.POOL_DISCARD
      · right; right
        have hc2 : ¬ H.POOL_DISCARD = H.POOL_COMPLETE := fun e => hc (hd.trans e)
        simp [hs, hd, hc2]
      · left
        simp [hs, hc, hd]

/-- C6 (backpressure without blocking): on a pool with `state = ON`,
`pthread_pool_submit` with `flag = POOL_NOWAIT` returns without waiting; it
returns `POOL_FULL` if and only if `q_len = q_size`, and then the pool
(`q_front`, `q_len`, `state`, every buffer slot) is unchanged; when
`q_len < q_size` it returns `POOL_SUCCESS`, `q_len` grows by exactly one and
`q_front` is unchanged. -/
theorem submit_nowait_backpressure (H : Header) (pool : pthread_pool_t) (f p : Nat)
    (hnw : H.POOL_NOWAIT ≠ H.POOL_WAIT) (hfs : H.POOL_FULL ≠ H.POOL_SUCCESS)
    (hon : pool.state = H.ON) :
    (pthread_pool_submit H pool f p H.POOL_NOWAIT).2 ≠ .waiting ∧
    ((pthread_pool_submit H pool f p H.POOL_NOWAIT).2 = .returned H.POOL_FULL ↔
      pool.q_len = pool.q_size) ∧
    (pool.q_len = pool.q_size →
      (pthread_pool_submit H pool f p H.POOL_NOWAIT).1 = pool) ∧
    (pool.q_len < pool.q_size →
      (pthread_pool_submit H pool f p H.POOL_NOWAIT).2 = .returned H.POOL_SUCCESS ∧
      (pthread_pool_submit H pool f p H.POOL_NOWAIT).1.q_len = pool.q_len + 1 ∧
      (pthread_pool_submit H pool f p H.POOL_NOWAIT).1.q_front = pool.q_front) := by
  have hsf : H.POOL_SUCCESS ≠ H.POOL_FULL := fun h => hfs h.symm
  unfold pthread_pool_submit submit_locked
  by_cases h : pool.q_len = pool.q_size
  · simp [hon, h, hnw]
  · simp [hon, h, enqueue, hsf]

/-- C6 on a full one-slot pool (returns `POOL_FULL`, pool unchanged) and on an
empty one (returns `POOL_SUCCESS`, `q_len` becomes 1). -/
theorem submit_nowait_backpressure_witness :
    (pthread_pool_submit hdr { pool11 with q_len := 1 } 10 20 hdr.POOL_NOWAIT).2
        = .returned hdr.POOL_FULL ∧
    (pthread_pool_submit hdr { pool11 with q_len := 1 } 10 20 hdr.POOL_NOWAIT).1
        = { pool11 with q_len := 1 } ∧
    (pthread_pool_submit hdr pool11 10 20 hdr.POOL_NOWAIT).2 = .returned hdr.POOL_SUCCESS ∧
    (pthread_pool_submit hdr pool11 10 20 hdr.POOL_NOWAIT).1.q_len = 1 :=
  have hfull := submit_nowait_backpressure hdr { pool11 with q_len := 1 } 10 20
    (by decide) (by decide) (by decide)
  have hfree := submit_nowait_backpressure hdr pool11 10 20 (by decide) (by decide) (by decide)
  ⟨hfull.2.1.mpr (by decide), hfull.2.2.1 (by decide), (hfree.2.2.2 (by decide)).1,
    (hfree.2.2.2 (by decide)).2.1⟩

/-- C9 (shutdown rejection is exact and atomic): `pthread_pool_shutdown` returns
`POOL_FAIL` if and only if `state = OFF` or `how` is neither `POOL_COMPLETE` nor
`POOL_DISCARD`; when it returns `POOL_FAIL` the pool is unchanged; in every
other case the first locked region sets `state` to `STANDBY` (`POOL_COMPLETE`)
or `OFF` (`POOL_DISCARD`), and the call returns `POOL_SUCCESS` with
`state = OFF`, whatever the other threads did while it joined the workers. -/
theorem shutdown_rejection (H : Header) (pool : pthread_pool_t) (how : Int)
    (joined : pthread_pool_t → pthread_pool_t)
    (hsf : H.POOL_SUCCESS ≠ H.POOL_FAIL) (hcd : H.POOL_COMPLETE ≠ H.POOL_DISCARD) :
    ((pthread_pool_shutdown H pool how joined).2 = H.POOL_FAIL ↔
      (pool.state = H.OFF ∨ (how ≠ H.POOL_COMPLETE ∧ how ≠ H.POOL_DISCARD))) ∧
    ((pthread_pool_shutdown H pool how joined).2 = H.POOL_FAIL →
      (pthread_pool_shutdown H pool how joined).1 = pool ∧
      shutdown_locked H pool how = (pool, .returned H.POOL_FAIL)) ∧
    (¬ (pool.state = H.OFF ∨ (how ≠ H.POOL_COMPLETE ∧ how ≠ H.POOL_DISCARD)) →
      (how = H.POOL_COMPLETE →
        shutdown_locked H pool how = ({ pool with state := H.STANDBY }, .joining)) ∧
      (how = H.POOL_DISCARD →
        shutdown_locked H pool how =
          ({ pool with q_len := 0, q_front := 0, state := H.OFF }, .joining)) ∧
      (pthread_pool_shutdown H pool how joined).2 = H.POOL_SUCCESS ∧
      (pthread_pool_shutdown H pool how joined).1.state = H.OFF) := by
  rcases shutdown_locked_cases H pool how with ⟨h, hc⟩ | ⟨h, hs, hc⟩ | ⟨h, hs, hn, hd⟩
  · have e : pthread_pool_shutdown H pool how joined = (pool, H.POOL_FAIL) := by
      unfold pthread_pool_shutdown
      rw [h]
    rw [e]
    exact ⟨⟨fun _ => hc, fun _ => rfl⟩, fun _ => ⟨rfl, h⟩, fun hno => absurd hc hno⟩
  · have e : pthread_pool_shutdown H pool how joined
        = shutdown_finish H (joined { pool with state := H.STANDBY }) := by
      unfold pthread_pool_shutdown
      rw [h]
    rw [e]
    have hne : ¬ (shutdown_finish H (joined { pool with state := H.STANDBY })).2 = H.POOL_FAIL :=
      hsf
    refine ⟨⟨fun hr => absurd hr hne, ?_⟩, fun hr => absurd hr hne, fun _ => ⟨fun _ => h, ?_, rfl, rfl⟩⟩
    · rintro (ho | ⟨hn, -⟩)
      · exact absurd ho hs
      · exact absurd hc hn
    · intro hd
      exact absurd (hc.symm.trans hd) hcd
  · have e : pthread_pool_shutdown H pool how joined
        = shutdown_finish H (joined { pool with q_len := 0, q_front := 0, state := H.OFF }) := by
      unfold pthread_pool_shutdown
      rw [h]
    rw [e]
    have hne : ¬ (shutdown_finish H
        (joined { pool with q_len := 0, q_front := 0, state := H.OFF })).2 = H.POOL_FAIL := hsf
    refine ⟨⟨fun hr => absurd hr hne, ?_⟩, fun hr => absurd hr hne,
      fun _ => ⟨fun hc => absurd hc hn, fun _ => h, rfl, rfl⟩⟩
    rintro (ho | ⟨-, hnd⟩)
    · exact absurd ho hs
    · exact absurd hd hnd

/-- C9 on a pool that is already `OFF` (a second shutdown) and on a running pool
given an invalid mode: both return `POOL_FAIL` and leave the pool as it was. -/
theorem shutdown_rejection_witness :
    ((pthread_pool_shutdown hdr { pool11 with state := hdr.OFF } hdr.POOL_COMPLETE id).2
        = hdr.POOL_FAIL ∧
      (pthread_pool_shutdown hdr { pool11 with state := hdr.OFF } hdr.POOL_COMPLETE id).1
        = { pool11 with state := hdr.OFF }) ∧
    ((pthread_pool_shutdown hdr pool11 5 id).2 = hdr.POOL_FAIL ∧
      (pthread_pool_shutdown hdr pool11 5 id).1 = pool11 ∧
      (pthread_pool_shutdown hdr pool11 5 id).1.state = hdr.ON) ∧
    ((pthread_pool_shutdown hdr pool11 hdr.POOL_COMPLETE id).2 = hdr.POOL_SUCCESS ∧
      (pthread_pool_shutdown hdr pool11 hdr.POOL_COMPLETE id).1.state = hdr.OFF) :=
  have h1 := shutdown_rejection hdr { pool11 with state := hdr.OFF } hdr.POOL_COMPLETE id
    (by decide) (by decide)
  have h2 := shutdown_rejection hdr pool11 5 id (by decide) (by decide)
  have h3 := shutdown_rejection hdr pool11 hdr.POOL_COMPLETE id (by decide) (by decide)
  have r1 := h1.1.mpr (Or.inl rfl)
  have r2 := h2.1.mpr (Or.inr ⟨by decide, by decide⟩)
  have r3 := h3.2.2 (by decide)
  ⟨⟨r1, (h1.2.1 r1).1⟩, ⟨r2, (h2.2.1 r2).1, by rw [(h2.2.1 r2).1]; decide⟩, ⟨r3.2.2.1, r3.2.2.2⟩⟩

/-! ### The circular buffer -/

/-- Two offsets below `q_len < q_size` address different slots. -/
theorem slot_ne_rear (front len size i : Nat) (hi : i < len) (hl : len < size) :
    (front + i) % size ≠ (front + len) % size := by
  intro h
  have h1 : i ≡ len [MOD size] := Nat.ModEq.add_left_cancel' front h
  have h2 : i % size = len % size := h1
  rw [Nat.mod_eq_of_lt (lt_trans hi hl), Nat.mod_eq_of_lt hl] at h2
  omega

/-- Enqueueing into a queue that is not full appends the task to the logical contents. -/
theorem contents_enqueue (pool : pthread_pool_t) (f p : Nat)
    (hl : pool.q_len < pool.q_size) :
    contents (enqueue pool f p) = contents pool ++ [⟨f, p⟩] := by
  unfold contents enqueue
  simp only [List.range_succ, List.map_append, List.map_cons, List.map_nil]
  congr 1
  · apply List.map_congr_left
    intro i hi
    have hi2 : i < pool.q_len := List.mem_range.mp hi
    simp [setSlot, slot_ne_rear pool.q_front pool.q_len pool.q_size i hi2 hl]
  · simp [setSlot]

/-- Dequeueing from a non-empty queue removes the head of the logical
contents, which is the slot at `q_front`. -/
theorem contents_dequeue (pool : pthread_pool_t)
    (hf : pool.q_front < pool.q_size) (hl : 0 < pool.q_len) :
    contents pool = pool.q pool.q_front :: contents (dequeue pool) := by
  unfold contents dequeue
  obtain ⟨n, hn⟩ : ∃ n, pool.q_len = n + 1 := ⟨pool.q_len - 1, by omega⟩
  simp only [hn, Nat.add_sub_cancel]
  rw [List.range_succ_eq_map, List.map_cons, List.map_map]
  congr 1
  · simp [Nat.mod_eq_of_lt hf]
  · apply List.map_congr_left
    intro i _
    simp only [Function.comp, Nat.mod_add_mod]
    congr 2
    omega

/-- The logical contents of an empty queue. -/
theorem contents_of_len_zero (pool : pthread_pool_t) (h : pool.q_len = 0) :
    contents pool = [] := by
  unfold contents
  rw [h]
  rfl

/-! ### What one step does -/

/-- Recording a submit region that did not return `POOL_SUCCESS` leaves the
log of submitted tasks as it was. -/
theorem submit_apply_silent (H : Header) (s : Sys) (i : Nat) (c : Call)
    (r : pthread_pool_t × SubmitResult) (hr : r.2 ≠ .returned H.POOL_SUCCESS) :
    (submit_apply H s i c r).submitted = s.submitted := by
  unfold submit_apply
  simp [hr]

/-- Every step is of one of seven kinds: it leaves pool, logs and workers as
they were; it enqueues (from line 127 in any state, from line 134 only when
`state == ON`); a worker goes to wait or to the top of its loop; a worker
exits, with `q_len == 0` and `state != ON`; a worker dequeues; shutdown runs
its first region; shutdown runs its last region. The log of submitted tasks is
the log of enqueued tasks when `POOL_SUCCESS` differs from the other two codes. -/
theorem step_effect (H : Header) (s s' : Sys) (a : Action)
    (h : step H s a = some s') :
    (s'.pool = s.pool ∧
      (H.POOL_SUCCESS ≠ H.POOL_FAIL → H.POOL_SUCCESS ≠ H.POOL_FULL →
        s'.submitted = s.submitted) ∧
      s'.dequeued = s.dequeued ∧ s'.bees = s.bees) ∨
    (∃ f p, s.pool.q_len ≠ s.pool.q_size ∧ s'.pool = enqueue s.pool f p ∧
      s'.submitted = s.submitted ++ [⟨f, p⟩] ∧ s'.dequeued = s.dequeued ∧ s'.bees = s.bees ∧
      (s.pool.state = H.ON ∨ ∃ i, a = .submit_lock i)) ∨
    (∃ w pc, w < s.bees.length ∧ pc ≠ WPc.exited ∧ s'.pool = s.pool ∧
      s'.submitted = s.submitted ∧ s'.dequeued = s.dequeued ∧ s'.bees = s.bees.set w pc) ∨
    (∃ w, s.pool.q_len = 0 ∧ s.pool.state ≠ H.ON ∧ s'.pool = s.pool ∧
      s'.submitted = s.submitted ∧ s'.dequeued = s.dequeued ∧
      s'.bees = s.bees.set w .exited) ∨
    (∃ w, w < s.bees.length ∧ s.pool.q_len ≠ 0 ∧ s'.pool = dequeue s.pool ∧
      s'.submitted = s.submitted ∧
      s'.dequeued = s.dequeued ++ [(w, s.pool.q s.pool.q_front)] ∧
      s'.bees = s.bees.set w .top) ∨
    (∃ how, a = .shutdown_call how ∧ s'.pool = (shutdown_locked H s.pool how).1 ∧
      s'.submitted = s.submitted ∧ s'.dequeued = s.dequeued ∧ s'.bees = s.bees) ∨
    (s'.pool = (shutdown_finish H s.pool).1 ∧ s'.submitted = s.submitted ∧
      s'.dequeued = s.dequeued ∧ s'.bees = s.bees ∧ s.bees.all (· = .exited) = true) := by
  have hfull : H.POOL_SUCCESS ≠ H.POOL_FULL →
      SubmitResult.returned H.POOL_FULL ≠ .returned H.POOL_SUCCESS := by
    intro hsu e
    injection e with e
    exact hsu e.symm
  have hfail : H.POOL_SUCCESS ≠ H.POOL_FAIL →
      SubmitResult.returned H.POOL_FAIL ≠ .returned H.POOL_SUCCESS := by
    intro hsf e
    injection e with e
    exact hsf e.symm
  have hwait : SubmitResult.waiting ≠ .returned H.POOL_SUCCESS := by
    intro e
    cases e
  cases a with
  | submit_call f p flag =>
    left
    simp only [step] at h
    split at h <;> (injection h with h; subst h; exact ⟨rfl, fun _ _ => rfl, rfl, rfl⟩)
  | submit_lock i =>
    simp only [step] at h
    split at h
    · rename_i c _
      split at h
      · injection h with h
        subst h
        rcases submit_locked_cases H s.pool c.f c.p c.flag with ⟨hp, hr⟩ | ⟨hl, he⟩
        · left
          refine ⟨hp, fun hsf hsu => submit_apply_silent H s i c _ ?_, rfl, rfl⟩
          rcases hr with hr | hr | hr <;> rw [hr]
          · exact hwait
          · exact hfull hsu
          · exact hfail hsf
        · right; left
          refine ⟨c.f, c.p, hl, ?_, ?_, rfl, rfl, Or.inr ⟨i, rfl⟩⟩
          · simp [submit_apply, he]
          · simp [submit_apply, he]
      · cases h
    · cases h
  | submit_wake i =>
    simp only [step] at h
    split at h
    · rename_i c _
      split at h
      · injection h with h
        subst h
        rcases submit_wakeup_cases H s.pool c.f c.p with ⟨hp, hr⟩ | ⟨hl, hon, he⟩
        · left
          refine ⟨hp, fun hsf _ => submit_apply_silent H s i c _ ?_, rfl, rfl⟩
          rcases hr with hr | hr <;> rw [hr]
          · exact hwait
          · exact hfail hsf
        · right; left
          refine ⟨c.f, c.p, hl, ?_, ?_, rfl, rfl, Or.inl hon⟩
          · simp [submit_apply, he]
          · simp [submit_apply, he]
      · cases h
    · cases h
  | worker_lock w =>
    simp only [step] at h
    split at h
    · rename_i hw
      have hlen : w < s.bees.length := by
        rcases List.getElem?_eq_some_iff.mp hw with ⟨hlt, -⟩
        exact hlt
      injection h with h
      subst h
      rcases worker_locked_cases H s.pool with ⟨he, hl, hs⟩ | ⟨he, -, -⟩ | ⟨hl, he⟩
      · right; right; right; left
        exact ⟨w, hl, hs, by simp [worker_apply, he], by simp [worker_apply, he],
          by simp [worker_apply, he], by simp [worker_apply, he]⟩
      · right; right; left
        exact ⟨w, .waiting, hlen, by simp, by simp [worker_apply, he], by simp [worker_apply, he],
          by simp [worker_apply, he], by simp [worker_apply, he]⟩
      · right; right; right; right; left
        exact ⟨w, hlen, hl, by simp [worker_apply, he], by simp [worker_apply, he],
          by simp [worker_apply, he], by simp [worker_apply, he]⟩
    · cases h
  | worker_wake w =>
    simp only [step] at h
    split at h
    · rename_i hw
      have hlen : w < s.bees.length := by
        rcases List.getElem?_eq_some_iff.mp hw with ⟨hlt, -⟩
        exact hlt
      injection h with h
      subst h
      rcases worker_wakeup_cases H s.pool with ⟨hp, hr⟩ | ⟨hl, he⟩
      · right; right; left
        rcases hr with ⟨hr, -⟩ | ⟨hr, -, -⟩
        · exact ⟨w, .waiting, hlen, by simp, by simp [worker_apply, hr, hp],
            by simp [worker_apply, hr], by simp [worker_apply, hr], by simp [worker_apply, hr]⟩
        · exact ⟨w, .top, hlen, by simp, by simp [worker_apply, hr, hp],
            by simp [worker_apply, hr], by simp [worker_apply, hr], by simp [worker_apply, hr]⟩
      · right; right; right; right; left
        exact ⟨w, hlen, hl, by simp [worker_apply, he], by simp [worker_apply, he],
          by simp [worker_apply, he], by simp [worker_apply, he]⟩
    · cases h
  | shutdown_call how =>
    right; right; right; right; right; left
    simp only [step] at h
    split at h
    · rename_i pool1 hsd
      injection h with h
      subst h
      exact ⟨how, rfl, by simp [hsd], rfl, rfl, rfl⟩
    · rename_i pool1 code hsd
      injection h with h
      subst h
      exact ⟨how, rfl, by simp [hsd], rfl, rfl, rfl⟩
  | shutdown_join =>
    right; right; right; right; right; right
    simp only [step] at h
    split at h
    · rename_i hj
      injection h with h
      subst h
      exact ⟨rfl, rfl, rfl, rfl, hj.2⟩
    · cases h

/-! ### Capacity -/

/-- Enqueueing into a queue that is not full keeps the cursor bounds. -/
theorem wf_enqueue (pool : pthread_pool_t) (f p : Nat) (h : WF pool)
    (hl : pool.q_len ≠ pool.q_size) : WF (enqueue pool f p) := by
  obtain ⟨h1, h2⟩ := h
  refine ⟨?_, h2⟩
  show pool.q_len + 1 ≤ pool.q_size
  omega

/-- Dequeueing keeps the cursor bounds. -/
theorem wf_dequeue (pool : pthread_pool_t) (h : WF pool) : WF (dequeue pool) := by
  obtain ⟨h1, h2⟩ := h
  refine ⟨?_, ?_⟩
  · show pool.q_len - 1 ≤ pool.q_size
    omega
  · show (pool.q_front + 1) % pool.q_size < pool.q_size
    exact Nat.mod_lt _ (by omega)

/-- The first region of shutdown keeps the cursor bounds. -/
theorem wf_shutdown_locked (H : Header) (pool : pthread_pool_t) (how : Int) (h : WF pool) :
    WF (shutdown_locked H pool how).1 := by
  obtain ⟨h1, h2⟩ := h
  rcases shutdown_locked_cases H pool how with ⟨e, -⟩ | ⟨e, -⟩ | ⟨e, -⟩ <;> rw [e]
  · exact ⟨h1, h2⟩
  · exact ⟨h1, h2⟩
  · refine ⟨Nat.zero_le _, ?_⟩
    show 0 < pool.q_size
    omega

/-- Every step keeps the cursor bounds. -/
theorem step_wf (H : Header) (s s' : Sys) (a : Action) (h : WF s.pool)
    (hs : step H s a = some s') : WF s'.pool := by
  rcases step_effect H s s' a hs with ⟨e, -⟩ | ⟨f, p, hl, e, -⟩ | ⟨w, pc, -, -, e, -⟩ |
    ⟨w, -, -, e, -⟩ | ⟨w, -, -, e, -⟩ | ⟨how, -, e, -⟩ | ⟨e, -⟩ <;> rw [e]
  · exact h
  · exact wf_enqueue _ f p h hl
  · exact h
  · exact h
  · exact wf_dequeue _ h
  · exact wf_shutdown_locked H _ how h
  · exact h

/-- Every run keeps the cursor bounds. -/
theorem run_wf (H : Header) (acts : List Action) :
    ∀ s s' : Sys, WF s.pool → run H s acts = some s' → WF s'.pool := by
  induction acts with
  | nil =>
    intro s s' h hr
    simp only [run, Option.some.injEq] at hr
    subst hr
    exact h
  | cons a as ih =>
    intro s s' h hr
    simp only [run] at hr
    cases hstep : step H s a with
    | none => simp [hstep] at hr
    | some s1 =>
      rw [hstep] at hr
      exact ih s1 s' (step_wf H s s1 a h hstep) hr

/-- No step changes `q_size` or `bee_size`. -/
theorem step_sizes (H : Header) (s s' : Sys) (a : Action) (hs : step H s a = some s') :
    s'.pool.q_size = s.pool.q_size ∧ s'.pool.bee_size = s.pool.bee_size := by
  rcases step_effect H s s' a hs with ⟨e, -⟩ | ⟨f, p, hl, e, -⟩ | ⟨w, pc, -, -, e, -⟩ |
    ⟨w, -, -, e, -⟩ | ⟨w, -, -, e, -⟩ | ⟨how, -, e, -⟩ | ⟨e, -⟩ <;> rw [e]
  · exact ⟨rfl, rfl⟩
  · exact ⟨rfl, rfl⟩
  · exact ⟨rfl, rfl⟩
  · exact ⟨rfl, rfl⟩
  · exact ⟨rfl, rfl⟩
  · rcases shutdown_locked_cases H s.pool how with ⟨e, -⟩ | ⟨e, -⟩ | ⟨e, -⟩ <;> rw [e] <;>
      exact ⟨rfl, rfl⟩
  · exact ⟨rfl, rfl⟩

/-- No run changes `q_size` or `bee_size`. -/
theorem run_sizes (H : Header) (acts : List Action) :
    ∀ s s' : Sys, run H s acts = some s' →
      s'.pool.q_size = s.pool.q_size ∧ s'.pool.bee_size = s.pool.bee_size := by
  induction acts with
  | nil =>
    intro s s' hr
    simp only [run, Option.some.injEq] at hr
    subst hr
    exact ⟨rfl, rfl⟩
  | cons a as ih =>
    intro s s' hr
    simp only [run] at hr
    cases hstep : step H s a with
    | none => simp [hstep] at hr
    | some s1 =>
      rw [hstep] at hr
      obtain ⟨h1, h2⟩ := ih s1 s' hr
      obtain ⟨h3, h4⟩ := step_sizes H s s1 a hstep
      exact ⟨h1.trans h3, h2.trans h4⟩

/-- A successful `pthread_pool_init` with at least one worker returns a pool
within the cursor bounds. -/
theorem init_wf (H : Header) (E : Env) (pool0 : pthread_pool_t) (bee_size queue_size : Nat)
    (hsf : H.POOL_SUCCESS ≠ H.POOL_FAIL) (hb : 1 ≤ bee_size)
    (hret : (pthread_pool_init H E pool0 bee_size queue_size).ret = H.POOL_SUCCESS) :
    WF (pthread_pool_init H E pool0 bee_size queue_size).pool := by
  obtain ⟨-, -, -, h2, h3, h4, -⟩ := init_success_fields H E pool0 bee_size queue_size hsf hret
  unfold WF
  rw [h2, h3, h4]
  have : bee_size ≤ max queue_size bee_size := le_max_right _ _
  omega

/-- C1 (capacity invariant): from the pool of a successful `pthread_pool_init`
with `bee_size >= 1`, every state reached by any interleaving of the steps of
submitters, workers and shutdown callers has `q_len <= q_size` and
`q_front < q_size`; from such a state no step that enqueues (raises `q_len` by
one) is taken with `q_len = q_size`, and no step that dequeues (extends the log
of dequeued tasks) is taken with `q_len = 0`. -/
theorem capacity_invariant (H : Header) (E : Env) (pool0 : pthread_pool_t)
    (bee_size queue_size : Nat) (hsf : H.POOL_SUCCESS ≠ H.POOL_FAIL) (hb : 1 ≤ bee_size)
    (hret : (pthread_pool_init H E pool0 bee_size queue_size).ret = H.POOL_SUCCESS)
    (acts : List Action) (s : Sys)
    (hrun : run H (boot (pthread_pool_init H E pool0 bee_size queue_size).pool) acts = some s) :
    s.pool.q_len ≤ s.pool.q_size ∧ s.pool.q_front < s.pool.q_size ∧
    ∀ (a : Action) (s' : Sys), step H s a = some s' →
      (s'.pool.q_len = s.pool.q_len + 1 → s.pool.q_len < s.pool.q_size) ∧
      (s'.dequeued ≠ s.dequeued → 0 < s.pool.q_len) := by
  have hwf : WF s.pool :=
    run_wf H acts _ s (init_wf H E pool0 bee_size queue_size hsf hb hret) hrun
  refine ⟨hwf.1, hwf.2, ?_⟩
  intro a s' hs
  have h1 := hwf.1
  rcases step_effect H s s' a hs with ⟨e, -, d, -⟩ | ⟨f, p, hl, e, -, d, -⟩ |
    ⟨w, pc, -, -, e, -, d, -⟩ | ⟨w, -, -, e, -, d, -⟩ | ⟨w, -, hl, e, -, d, -⟩ |
    ⟨how, -, e, -, d, -⟩ | ⟨e, -, d, -⟩
  · exact ⟨fun hq => by rw [e] at hq; omega, fun hd => absurd d hd⟩
  · exact ⟨fun _ => by omega, fun hd => absurd d hd⟩
  · exact ⟨fun hq => by rw [e] at hq; omega, fun hd => absurd d hd⟩
  · exact ⟨fun hq => by rw [e] at hq; omega, fun hd => absurd d hd⟩
  · refine ⟨fun hq => ?_, fun _ => by omega⟩
    have hd : (dequeue s.pool).q_len = s.pool.q_len - 1 := rfl
    rw [e, hd] at hq
    omega
  · refine ⟨fun hq => ?_, fun hd => absurd d hd⟩
    rw [e] at hq
    rcases shutdown_locked_cases H s.pool how with ⟨e2, -⟩ | ⟨e2, -⟩ | ⟨e2, -⟩ <;>
      rw [e2] at hq <;> simp at hq
  · refine ⟨fun hq => ?_, fun hd => absurd d hd⟩
    rw [e] at hq
    simp [shutdown_finish] at hq

/-- C1 on a pool with two workers and three slots: four submissions are
accepted against three slots only after a worker made room. -/
theorem capacity_invariant_witness :
    (pthread_pool_init hdr okEnv rawPool 2 3).ret = hdr.POOL_SUCCESS ∧
    ∃ s : Sys,
      run hdr (boot pool23)
        [.submit_call 1 10 hdr.POOL_WAIT, .submit_lock 0, .submit_call 2 20 hdr.POOL_WAIT,
          .submit_lock 1, .submit_call 3 30 hdr.POOL_WAIT, .submit_lock 2,
          .submit_call 4 40 hdr.POOL_WAIT, .submit_lock 3, .worker_lock 0, .submit_wake 3]
        = some s ∧
      s.pool.q_len ≤ s.pool.q_size ∧ s.pool.q_front < s.pool.q_size := by
  refine ⟨by decide, ?_⟩
  have hsome : (run hdr (boot pool23)
      [.submit_call 1 10 hdr.POOL_WAIT, .submit_lock 0, .submit_call 2 20 hdr.POOL_WAIT,
        .submit_lock 1, .submit_call 3 30 hdr.POOL_WAIT, .submit_lock 2,
        .submit_call 4 40 hdr.POOL_WAIT, .submit_lock 3, .worker_lock 0,
        .submit_wake 3]).isSome = true := by decide
  obtain ⟨s, hs⟩ := Option.isSome_iff_exists.mp hsome
  have h := capacity_invariant hdr okEnv rawPool 2 3 (by decide) (by decide) (by decide) _ s hs
  exact ⟨s, hs, h.1, h.2.1⟩

/-! ### Worker count -/

/-- C10, as stated, fails: `pthread_pool_init` with `bee_size = 0` and
`queue_size = 1`, on a library whose allocations succeed, returns `POOL_SUCCESS`
with a pool that has no worker. -/
theorem init_zero_workers :
    hdr.POOL_SUCCESS ≠ hdr.POOL_FAIL ∧
    (pthread_pool_init hdr okEnv rawPool 0 1).ret = hdr.POOL_SUCCESS ∧
    (pthread_pool_init hdr okEnv rawPool 0 1).pool.state = hdr.ON ∧
    (pthread_pool_init hdr okEnv rawPool 0 1).pool.bee_size = 0 ∧
    ¬ (1 ≤ (pthread_pool_init hdr okEnv rawPool 0 1).pool.bee_size) := by
  decide

/-- C10, amended: when `pthread_pool_init` returns `POOL_SUCCESS`, the pool's
`bee_size` is the requested count and is at most `POOL_MAXBSIZE` (no lower
bound is enforced), and no later step of a submitter, a worker or a shutdown
caller changes it. -/
theorem worker_count_bounds (H : Header) (E : Env) (pool0 : pthread_pool_t)
    (bee_size queue_size : Nat) (hsf : H.POOL_SUCCESS ≠ H.POOL_FAIL)
    (hret : (pthread_pool_init H E pool0 bee_size queue_size).ret = H.POOL_SUCCESS)
    (acts : List Action) (s : Sys)
    (hrun : run H (boot (pthread_pool_init H E pool0 bee_size queue_size).pool) acts = some s) :
    (pthread_pool_init H E pool0 bee_size queue_size).pool.bee_size = bee_size ∧
    (pthread_pool_init H E pool0 bee_size queue_size).pool.bee_size ≤ H.POOL_MAXBSIZE ∧
    s.pool.bee_size = bee_size := by
  obtain ⟨hb, -, h1, -⟩ := init_success_fields H E pool0 bee_size queue_size hsf hret
  refine ⟨h1, by rw [h1]; exact hb, ?_⟩
  rw [(run_sizes H acts _ s hrun).2]
  exact h1

/-- C10, amended, on a pool with two workers after a submission, a dequeue and
a discarding shutdown. -/
theorem worker_count_bounds_witness :
    (pthread_pool_init hdr okEnv rawPool 2 3).ret = hdr.POOL_SUCCESS ∧
    ∃ s : Sys,
      run hdr (boot pool23)
        [.submit_call 1 10 hdr.POOL_NOWAIT, .submit_lock 0, .worker_lock 1,
          .shutdown_call hdr.POOL_DISCARD, .worker_lock 0, .worker_lock 1, .shutdown_join]
        = some s ∧
      pool23.bee_size = 2 ∧ s.pool.bee_size = 2 := by
  refine ⟨by decide, ?_⟩
  have hsome : (run hdr (boot pool23)
      [.submit_call 1 10 hdr.POOL_NOWAIT, .submit_lock 0, .worker_lock 1,
        .shutdown_call hdr.POOL_DISCARD, .worker_lock 0, .worker_lock 1,
        .shutdown_join]).isSome = true := by decide
  obtain ⟨s, hs⟩ := Option.isSome_iff_exists.mp hsome
  have h := worker_count_bounds hdr okEnv rawPool 2 3 (by decide) (by decide) _ s hs
  exact ⟨s, hs, h.1, h.2.2⟩

/-! ### First in, first out -/

/-- A step that is not a discarding shutdown keeps the tasks dequeued so far
followed by the queued tasks equal to the tasks submitted so far. -/
theorem step_loginv (H : Header) (hsf : H.POOL_SUCCESS ≠ H.POOL_FAIL)
    (hsu : H.POOL_SUCCESS ≠ H.POOL_FULL) (s s' : Sys) (a : Action)
    (hwf : WF s.pool) (hinv : LogInv s) (hnd : a ≠ .shutdown_call H.POOL_DISCARD)
    (hs : step H s a = some s') : LogInv s' := by
  unfold LogInv at hinv ⊢
  obtain ⟨h1, h2⟩ := hwf
  rcases step_effect H s s' a hs with ⟨e, b, d, -⟩ | ⟨f, p, hl, e, b, d, -⟩ |
    ⟨w, pc, -, -, e, b, d, -⟩ | ⟨w, -, -, e, b, d, -⟩ | ⟨w, -, hl, e, b, d, -⟩ |
    ⟨how, ha, e, b, d, -⟩ | ⟨e, b, d, -⟩
  · rw [e, b hsf hsu, d]
    exact hinv
  · rw [e, b, d, contents_enqueue s.pool f p (by omega), ← List.append_assoc, hinv]
  · rw [e, b, d]
    exact hinv
  · rw [e, b, d]
    exact hinv
  · rw [e, b, d, ← hinv, contents_dequeue s.pool h2 (by omega)]
    simp [tasksOf]
  · rw [b, d, e]
    rcases shutdown_locked_cases H s.pool how with ⟨e2, -⟩ | ⟨e2, -⟩ | ⟨e2, -, -, hd⟩
    · rw [e2]
      exact hinv
    · rw [e2]
      exact hinv
    · rw [ha, hd] at hnd
      exact absurd rfl hnd
  · rw [e, b, d]
    exact hinv

/-- A run without a discarding shutdown keeps the cursor bounds and the
relation between the two logs and the queue. -/
theorem run_loginv (H : Header) (hsf : H.POOL_SUCCESS ≠ H.POOL_FAIL)
    (hsu : H.POOL_SUCCESS ≠ H.POOL_FULL) (acts : List Action) :
    ∀ s s' : Sys, WF s.pool → LogInv s →
      (∀ a ∈ acts, a ≠ .shutdown_call H.POOL_DISCARD) →
      run H s acts = some s' → WF s'.pool ∧ LogInv s' := by
  induction acts with
  | nil =>
    intro s s' hwf hinv _ hr
    simp only [run, Option.some.injEq] at hr
    subst hr
    exact ⟨hwf, hinv⟩
  | cons a as ih =>
    intro s s' hwf hinv hnd hr
    simp only [run] at hr
    cases hstep : step H s a with
    | none => simp [hstep] at hr
    | some s1 =>
      rw [hstep] at hr
      have ha : a ≠ .shutdown_call H.POOL_DISCARD := hnd a (List.mem_cons_self _ _)
      exact ih s1 s' (step_wf H s s1 a hwf hstep)
        (step_loginv H hsf hsu s s1 a hwf hinv ha hstep)
        (fun x hx => hnd x (List.mem_cons_of_mem _ hx)) hr

/-- The queue discipline, with `L` the slots `q[(q_front + i) % q_size]`,
`i < q_len`: on a pool with `q_size >= 1`, `q_front < q_size` and `q_len < q_size`, the locked
region of `pthread_pool_submit` enqueues and turns `L` into `L ++ [(f, p)]`; on
a pool with `q_len > 0` and `q_front < q_size` (the slot read on line 34 lies
inside the buffer) a worker iteration takes the head of `L` and leaves its
tail; consequently, in every run of submit, worker
and draining-shutdown steps that starts with the dequeued tasks followed by `L`
equal to the submitted tasks (as right after init, where all three are empty),
they stay so, and the dequeued tasks are a prefix of the submitted tasks, in
the same order. -/
theorem fifo_order (H : Header) (hsf : H.POOL_SUCCESS ≠ H.POOL_FAIL)
    (hsu : H.POOL_SUCCESS ≠ H.POOL_FULL) :
    (∀ (pool : pthread_pool_t) (f p : Nat) (flag : Int),
      1 ≤ pool.q_size → pool.q_front < pool.q_size → pool.q_len < pool.q_size →
      (submit_locked H pool f p flag).2 = .returned H.POOL_SUCCESS ∧
      contents (submit_locked H pool f p flag).1 = contents pool ++ [⟨f, p⟩]) ∧
    (∀ pool : pthread_pool_t, pool.q_front < pool.q_size → 0 < pool.q_len →
      ∃ t : task_t, (worker_locked H pool).2 = .took t ∧
        (contents pool).head? = some t ∧
        contents (worker_locked H pool).1 = (contents pool).tail) ∧
    (∀ (s s' : Sys) (acts : List Action),
      s.pool.q_len ≤ s.pool.q_size → s.pool.q_front < s.pool.q_size →
      tasksOf s.dequeued ++ contents s.pool = s.submitted →
      (∀ a ∈ acts, a ≠ .shutdown_call H.POOL_DISCARD) →
      run H s acts = some s' →
      tasksOf s'.dequeued ++ contents s'.pool = s'.submitted ∧
      tasksOf s'.dequeued <+: s'.submitted) := by
  refine ⟨?_, ?_, ?_⟩
  · intro pool f p flag _ _ hl
    rcases submit_locked_cases H pool f p flag with ⟨-, -⟩ | ⟨-, e⟩
    · have hne : pool.q_len ≠ pool.q_size := by omega
      simp [submit_locked, hne, contents_enqueue pool f p hl]
    · rw [e]
      exact ⟨rfl, contents_enqueue pool f p hl⟩
  · intro pool hf hl
    rcases worker_locked_cases H pool with ⟨-, h0, -⟩ | ⟨-, h0, -⟩ | ⟨-, e⟩
    · omega
    · omega
    · refine ⟨pool.q pool.q_front, by rw [e], ?_, ?_⟩
      · rw [contents_dequeue pool hf hl]
        rfl
      · rw [e, contents_dequeue pool hf hl]
        rfl
  · intro s s' acts h1 h2 hinv hnd hr
    have h := (run_loginv H hsf hsu acts s s' ⟨h1, h2⟩ hinv hnd hr).2
    unfold LogInv at h
    exact ⟨h, ⟨contents s'.pool, h⟩⟩

/-- The queue discipline with tasks A, B, C submitted in this order to a
two-worker, three-slot pool: after two dequeues the workers hold A then B, and C is queued. -/
theorem fifo_order_witness :
    ∃ s : Sys,
      run hdr (boot pool23)
        [.submit_call 1 10 hdr.POOL_NOWAIT, .submit_lock 0, .submit_call 2 20 hdr.POOL_NOWAIT,
          .submit_lock 1, .worker_lock 1, .submit_call 3 30 hdr.POOL_NOWAIT, .submit_lock 2,
          .worker_lock 0] = some s ∧
      s.submitted = [⟨1, 10⟩, ⟨2, 20⟩, ⟨3, 30⟩] ∧
      tasksOf s.dequeued = [⟨1, 10⟩, ⟨2, 20⟩] ∧
      tasksOf s.dequeued ++ contents s.pool = s.submitted ∧
      tasksOf s.dequeued <+: s.submitted := by
  have hsome : (run hdr (boot pool23)
      [.submit_call 1 10 hdr.POOL_NOWAIT, .submit_lock 0, .submit_call 2 20 hdr.POOL_NOWAIT,
        .submit_lock 1, .worker_lock 1, .submit_call 3 30 hdr.POOL_NOWAIT, .submit_lock 2,
        .worker_lock 0]).isSome = true := by decide
  obtain ⟨s, hs⟩ := Option.isSome_iff_exists.mp hsome
  have h := (fifo_order hdr (by decide) (by decide)).2.2 (boot pool23) s _
    (by decide) (by decide) (by decide) (by decide) hs
  have hsub : (run hdr (boot pool23)
      [.submit_call 1 10 hdr.POOL_NOWAIT, .submit_lock 0, .submit_call 2 20 hdr.POOL_NOWAIT,
        .submit_lock 1, .worker_lock 1, .submit_call 3 30 hdr.POOL_NOWAIT, .submit_lock 2,
        .worker_lock 0]).map (fun s => (s.submitted, tasksOf s.dequeued))
      = some ([⟨1, 10⟩, ⟨2, 20⟩, ⟨3, 30⟩], [⟨1, 10⟩, ⟨2, 20⟩]) := by decide
  rw [hs] at hsub
  simp only [Option.map_some', Option.some.injEq, Prod.mk.injEq] at hsub
  exact ⟨s, hs, hsub.1, hsub.2, h.1, h.2⟩

/-- A run whose submit regions start at line 127 only while `state == ON`
keeps the dequeued tasks a prefix of the submitted tasks, discarding shutdowns
included: until a discard the dequeued tasks followed by the queue contents
are the submitted tasks, and after it nothing is enqueued or dequeued. -/
theorem run_fifo_lock_on (H : Header) (hsf : H.POOL_SUCCESS ≠ H.POOL_FAIL)
    (hsu : H.POOL_SUCCESS ≠ H.POOL_FULL) (hoo : H.OFF ≠ H.ON) (acts : List Action) :
    ∀ s s' : Sys, WF s.pool →
      (LogInv s ∨ (s.pool.state = H.OFF ∧ s.pool.q_len = 0 ∧
        tasksOf s.dequeued <+: s.submitted)) →
      locksWhileOn H s acts = true → run H s acts = some s' →
      tasksOf s'.dequeued <+: s'.submitted := by
  induction acts with
  | nil =>
    intro s s' _ hinv _ hr
    simp only [run, Option.some.injEq] at hr
    subst hr
    rcases hinv with h | ⟨-, -, h⟩
    · exact ⟨contents s.pool, h⟩
    · exact h
  | cons a as ih =>
    intro s s' hwf hinv hlk hr
    simp only [run] at hr
    cases hstep : step H s a with
    | none => simp [hstep] at hr
    | some s1 =>
      rw [hstep] at hr
      simp only [locksWhileOn, hstep, Bool.and_eq_true] at hlk
      refine ih s1 s' (step_wf H s s1 a hwf hstep) ?_ hlk.2 hr
      obtain ⟨w1, w2⟩ := hwf
      have hq : (s.pool.state = H.OFF ∧ s.pool.q_len = 0 ∧
          tasksOf s.dequeued <+: s.submitted) → s.pool.state ≠ H.ON := by
        rintro ⟨h, -, -⟩
        rw [h]
        exact hoo
      unfold LogInv at hinv ⊢
      rcases step_effect H s s1 a hstep with ⟨e, b, d, -⟩ | ⟨f, p, hl, e, b, d, -, hon⟩ |
        ⟨w, pc, -, -, e, b, d, -⟩ | ⟨w, -, -, e, b, d, -⟩ | ⟨w, -, hl, e, b, d, -⟩ |
        ⟨how, -, e, b, d, -⟩ | ⟨e, b, d, -⟩
      · rw [e, b hsf hsu, d]
        exact hinv
      · have hon2 : s.pool.state = H.ON := by
          rcases hon with h | ⟨i, hi⟩
          · exact h
          · have h := hlk.1
            rw [hi] at h
            exact of_decide_eq_true h
        rcases hinv with h | h
        · left
          rw [e, b, d, contents_enqueue s.pool f p (by omega), ← List.append_assoc, h]
        · exact absurd hon2 (hq h)
      · rw [e, b, d]
        exact hinv
      · rw [e, b, d]
        exact hinv
      · rcases hinv with h | ⟨-, h0, -⟩
        · left
          rw [e, b, d, ← h, contents_dequeue s.pool w2 (by omega)]
          simp [tasksOf]
        · exact absurd h0 hl
      · rw [b, d, e]
        rcases shutdown_locked_cases H s.pool how with ⟨e2, -⟩ | ⟨e2, hs, -⟩ | ⟨e2, hs, -⟩
        · rw [e2]
          exact hinv
        · rw [e2]
          rcases hinv with h | ⟨h, -, -⟩
          · exact Or.inl h
          · exact absurd h hs
        · rw [e2]
          rcases hinv with h | ⟨h, -, -⟩
          · exact Or.inr ⟨rfl, rfl, ⟨contents s.pool, h⟩⟩
          · exact absurd h hs
      · rw [e, b, d]
        rcases hinv with h | ⟨-, h0, h⟩
        · exact Or.inl h
        · exact Or.inr ⟨rfl, h0, h⟩

/-- C2 at its failing input. On a two-worker, three-slot pool one submitter
submits A, B, C in this order. A is enqueued and dequeued, B is enqueued, the
call for C reads `state == ON` on line 124, shutdown with `POOL_DISCARD` then
drops B and sets `state` to `OFF`, and the call for C then runs lines 127-148
and enqueues; a worker's next iteration dequeues C. All three calls returned
`POOL_SUCCESS`, and the dequeued tasks A, C are not a prefix of A, B, C. -/
theorem fifo_broken_by_late_lock :
    (run hdr (boot pool23)
      [.submit_call 1 10 hdr.POOL_NOWAIT, .submit_lock 0, .worker_lock 0,
        .submit_call 2 20 hdr.POOL_NOWAIT, .submit_lock 1,
        .submit_call 3 30 hdr.POOL_NOWAIT, .shutdown_call hdr.POOL_DISCARD, .submit_lock 2,
        .worker_lock 1]).map
        (fun s => (s.calls.map (·.pc), s.submitted, tasksOf s.dequeued))
      = some ([.done hdr.POOL_SUCCESS, .done hdr.POOL_SUCCESS, .done hdr.POOL_SUCCESS],
          [⟨1, 10⟩, ⟨2, 20⟩, ⟨3, 30⟩], [⟨1, 10⟩, ⟨3, 30⟩]) ∧
    ¬ (([⟨1, 10⟩, ⟨3, 30⟩] : List task_t) <+: [⟨1, 10⟩, ⟨2, 20⟩, ⟨3, 30⟩]) ∧
    locksWhileOn hdr (boot pool23)
      [.submit_call 1 10 hdr.POOL_NOWAIT, .submit_lock 0, .worker_lock 0,
        .submit_call 2 20 hdr.POOL_NOWAIT, .submit_lock 1,
        .submit_call 3 30 hdr.POOL_NOWAIT, .shutdown_call hdr.POOL_DISCARD, .submit_lock 2,
        .worker_lock 1] = false := by
  refine ⟨by decide, by decide, by decide⟩

/-! ### Draining -/

/-- The first region of shutdown leaves `state` as it was or sets it to
`STANDBY` or `OFF`, and leaves `q_len` as it was or sets it to zero. -/
theorem shutdown_locked_state (H : Header) (pool : pthread_pool_t) (how : Int) :
    ((shutdown_locked H pool how).1.state = pool.state ∨
      (shutdown_locked H pool how).1.state = H.STANDBY ∨
      (shutdown_locked H pool how).1.state = H.OFF) ∧
    ((shutdown_locked H pool how).1.q_len = pool.q_len ∨
      (shutdown_locked H pool how).1.q_len = 0) := by
  rcases shutdown_locked_cases H pool how with ⟨e, -⟩ | ⟨e, -⟩ | ⟨e, -⟩ <;> rw [e]
  · exact ⟨Or.inl rfl, Or.inl rfl⟩
  · exact ⟨Or.inr (Or.inl rfl), Or.inl rfl⟩
  · exact ⟨Or.inr (Or.inr rfl), Or.inr rfl⟩

/-- A step whose submit regions start at line 127 only while `state == ON`
keeps `Drained`. -/
theorem step_drained (H : Header) (hso : H.STANDBY ≠ H.ON) (hoo : H.OFF ≠ H.ON)
    (s s' : Sys) (a : Action) (hd : Drained H s)
    (hlk : ∀ i, a = .submit_lock i → s.pool.state = H.ON)
    (hs : step H s a = some s') : Drained H s' := by
  obtain ⟨d1, d2⟩ := hd
  have hex : s.bees ≠ [] → (∀ w ∈ s.bees, w = WPc.exited) → s.pool.state ≠ H.ON := by
    intro hne hall
    apply d1
    cases hb : s.bees with
    | nil => exact absurd hb hne
    | cons x xs =>
      have hx : x = WPc.exited := hall x (by rw [hb]; exact List.mem_cons_self _ _)
      rw [hx]
      exact List.mem_cons_self _ _
  unfold Drained
  rcases step_effect H s s' a hs with ⟨e, -, -, b⟩ | ⟨f, p, -, e, -, -, b, hon⟩ |
    ⟨w, pc, hw, hpc, e, -, -, b⟩ | ⟨w, hl, hst, e, -, -, b⟩ | ⟨w, hw, -, e, -, -, b⟩ |
    ⟨how, -, e, -, -, b⟩ | ⟨e, -, -, b, -⟩
  · rw [e, b]
    exact ⟨d1, d2⟩
  · have hon2 : s.pool.state = H.ON := by
      rcases hon with h | ⟨i, hi⟩
      · exact h
      · exact hlk i hi
    rw [b]
    refine ⟨fun hx => ?_, fun hne hall => ?_⟩
    · exact absurd hon2 (d1 hx)
    · exact absurd hon2 (hex hne hall)
  · rw [e, b]
    refine ⟨fun hx => ?_, fun _ hall => ?_⟩
    · rcases List.mem_or_eq_of_mem_set hx with h | h
      · exact d1 h
      · exact absurd h.symm hpc
    · exact absurd (hall pc (List.mem_set _ _ hw pc)) hpc
  · rw [e]
    exact ⟨fun _ => hst, fun _ _ => hl⟩
  · rw [e, b]
    refine ⟨fun hx => ?_, fun _ hall => ?_⟩
    · rcases List.mem_or_eq_of_mem_set hx with h | h
      · exact d1 h
      · cases h
    · have := hall WPc.top (List.mem_set _ _ hw WPc.top)
      cases this
  · rw [e, b]
    obtain ⟨hst, hq⟩ := shutdown_locked_state H s.pool how
    refine ⟨fun hx => ?_, fun hne hall => ?_⟩
    · rcases hst with h | h | h <;> rw [h]
      · exact d1 hx
      · exact hso
      · exact hoo
    · rcases hq with h | h <;> rw [h]
      exact d2 hne hall
  · rw [e, b]
    exact ⟨fun _ => hoo, d2⟩

/-- No step changes the number of worker threads. -/
theorem step_bees_length (H : Header) (s s' : Sys) (a : Action)
    (hs : step H s a = some s') : s'.bees.length = s.bees.length := by
  rcases step_effect H s s' a hs with ⟨-, -, -, b⟩ | ⟨f, p, -, -, -, -, b, -⟩ |
    ⟨w, pc, -, -, -, -, -, b⟩ | ⟨w, -, -, -, -, -, b⟩ | ⟨w, -, -, -, -, -, b⟩ |
    ⟨how, -, -, -, -, b⟩ | ⟨-, -, -, b, -⟩ <;> rw [b] <;> simp

/-- A run without a discarding shutdown whose submit regions start at line 127
only while `state == ON` keeps the cursor bounds, the relation between logs
and queue, `Drained` and the number of worker threads. -/
theorem run_drained (H : Header) (hsf : H.POOL_SUCCESS ≠ H.POOL_FAIL)
    (hsu : H.POOL_SUCCESS ≠ H.POOL_FULL) (hso : H.STANDBY ≠ H.ON) (hoo : H.OFF ≠ H.ON)
    (acts : List Action) :
    ∀ s s' : Sys, WF s.pool → LogInv s → Drained H s →
      (∀ a ∈ acts, a ≠ .shutdown_call H.POOL_DISCARD) →
      locksWhileOn H s acts = true →
      run H s acts = some s' →
      WF s'.pool ∧ LogInv s' ∧ Drained H s' ∧ s'.bees.length = s.bees.length := by
  induction acts with
  | nil =>
    intro s s' hwf hinv hd _ _ hr
    simp only [run, Option.some.injEq] at hr
    subst hr
    exact ⟨hwf, hinv, hd, rfl⟩
  | cons a as ih =>
    intro s s' hwf hinv hd hnd hlk hr
    simp only [run] at hr
    cases hstep : step H s a with
    | none => simp [hstep] at hr
    | some s1 =>
      rw [hstep] at hr
      have ha : a ≠ .shutdown_call H.POOL_DISCARD := hnd a (List.mem_cons_self _ _)
      simp only [locksWhileOn, hstep, Bool.and_eq_true] at hlk
      have hlk1 : ∀ i, a = .submit_lock i → s.pool.state = H.ON := by
        intro i hi
        have h := hlk.1
        rw [hi] at h
        exact of_decide_eq_true h
      obtain ⟨r1, r2, r3, r4⟩ := ih s1 s' (step_wf H s s1 a hwf hstep)
        (step_loginv H hsf hsu s s1 a hwf hinv ha hstep)
        (step_drained H hso hoo s s1 a hd hlk1 hstep)
        (fun x hx => hnd x (List.mem_cons_of_mem _ hx)) hlk.2 hr
      exact ⟨r1, r2, r3, r4.trans (step_bees_length H s s1 a hstep)⟩

/-! ### Exactly once under a draining shutdown -/

/-- A pool without workers strands its tasks: `init(0, 1)` succeeds, a
submission returns `POOL_SUCCESS` while the pool is `ON`, shutdown with
`POOL_COMPLETE` runs to its end (there is no worker to join), and the task is
still queued: `q_len = 1`, nothing was dequeued. -/
theorem complete_without_workers :
    (pthread_pool_init hdr okEnv rawPool 0 1).ret = hdr.POOL_SUCCESS ∧
    locksWhileOn hdr (boot pool01)
      [.submit_call 1 10 hdr.POOL_NOWAIT, .submit_lock 0, .shutdown_call hdr.POOL_COMPLETE,
        .shutdown_join] = true ∧
    (run hdr (boot pool01)
      [.submit_call 1 10 hdr.POOL_NOWAIT, .submit_lock 0, .shutdown_call hdr.POOL_COMPLETE,
        .shutdown_join]).map
        (fun s => (s.calls.map (·.pc), s.submitted, s.dequeued, s.bees, s.pool.q_len,
          s.pool.state, s.joiners))
      = some ([.done hdr.POOL_SUCCESS], [⟨1, 10⟩], [], [], 1, hdr.OFF, 0) := by
  refine ⟨by decide, by decide, ?_⟩
  rfl

/-- Exactly-once execution for the runs without a late lock: for a pool of a
successful `pthread_pool_init` with `bee_size >= 1`, in every run in which shutdown is never called with
`POOL_DISCARD` and every call of submit acquires the mutex on line 127 while
`state` is `ON`: a worker iteration ends the worker only when `q_len = 0` and
`state != ON` (and a wake-up never ends it); the tasks dequeued so far followed
by the queue contents are the tasks whose submit returned `POOL_SUCCESS`; and
in every state in which all `bee_size` workers have exited, `q_len = 0` and
the dequeued tasks, each taken once by one worker, are exactly the submitted
tasks in order. -/
theorem exactly_once_complete (H : Header) (E : Env) (pool0 : pthread_pool_t)
    (bee_size queue_size : Nat) (hsf : H.POOL_SUCCESS ≠ H.POOL_FAIL)
    (hsu : H.POOL_SUCCESS ≠ H.POOL_FULL) (hso : H.STANDBY ≠ H.ON) (hoo : H.OFF ≠ H.ON)
    (hb : 1 ≤ bee_size)
    (hret : (pthread_pool_init H E pool0 bee_size queue_size).ret = H.POOL_SUCCESS)
    (acts : List Action) (s : Sys)
    (hnd : ∀ a ∈ acts, a ≠ .shutdown_call H.POOL_DISCARD)
    (hlk : locksWhileOn H (boot (pthread_pool_init H E pool0 bee_size queue_size).pool) acts
      = true)
    (hrun : run H (boot (pthread_pool_init H E pool0 bee_size queue_size).pool) acts = some s) :
    (∀ pool : pthread_pool_t, (worker_locked H pool).2 = .exited →
      pool.q_len = 0 ∧ pool.state ≠ H.ON) ∧
    (∀ pool : pthread_pool_t, (worker_wakeup H pool).2 ≠ .exited) ∧
    s.bees.length = bee_size ∧
    tasksOf s.dequeued ++ contents s.pool = s.submitted ∧
    ((∀ w ∈ s.bees, w = WPc.exited) →
      s.pool.q_len = 0 ∧ tasksOf s.dequeued = s.submitted) := by
  obtain ⟨-, -, h1, -, -, h4, -⟩ := init_success_fields H E pool0 bee_size queue_size hsf hret
  have hwf := init_wf H E pool0 bee_size queue_size hsf hb hret
  have hlog : LogInv (boot (pthread_pool_init H E pool0 bee_size queue_size).pool) := by
    show tasksOf [] ++ contents (pthread_pool_init H E pool0 bee_size queue_size).pool = []
    rw [contents_of_len_zero _ h4]
    rfl
  have hdr0 : Drained H (boot (pthread_pool_init H E pool0 bee_size queue_size).pool) := by
    refine ⟨fun hx => ?_, fun _ _ => h4⟩
    have := List.eq_of_mem_replicate hx
    cases this
  obtain ⟨-, r2, r3, r4⟩ := run_drained H hsf hsu hso hoo acts _ s hwf hlog hdr0 hnd hlk hrun
  have hlen : s.bees.length = bee_size := by
    rw [r4]
    simp [boot, h1]
  refine ⟨?_, ?_, hlen, r2, ?_⟩
  · intro pool he
    rcases worker_locked_cases H pool with ⟨-, hl, hs⟩ | ⟨e, -, -⟩ | ⟨-, e⟩
    · exact ⟨hl, hs⟩
    · rw [e] at he
      cases he
    · rw [e] at he
      cases he
  · intro pool he
    rcases worker_wakeup_cases H pool with ⟨-, ⟨e, -⟩ | ⟨e, -⟩⟩ | ⟨-, e⟩ <;> rw [e] at he <;>
      cases he
  · intro hall
    have hne : s.bees ≠ [] := by
      intro hnil
      rw [hnil] at hlen
      simp at hlen
      omega
    have hq := r3.2 hne hall
    refine ⟨hq, ?_⟩
    have h := r2
    unfold LogInv at h
    rw [contents_of_len_zero _ hq, List.append_nil] at h
    exact h

/-- Exactly-once execution on a two-worker pool: A and B are submitted, shutdown is
called with `POOL_COMPLETE`, each worker takes one task and exits; then the
queue is empty and the dequeued tasks are A, B. -/
theorem exactly_once_complete_witness :
    (pthread_pool_init hdr okEnv rawPool 2 3).ret = hdr.POOL_SUCCESS ∧
    ∃ s : Sys,
      run hdr (boot pool23)
        [.submit_call 1 10 hdr.POOL_NOWAIT, .submit_lock 0, .submit_call 2 20 hdr.POOL_NOWAIT,
          .submit_lock 1, .shutdown_call hdr.POOL_COMPLETE, .worker_lock 0, .worker_lock 1,
          .worker_lock 0, .worker_lock 1, .shutdown_join] = some s ∧
      s.bees = [.exited, .exited] ∧ s.submitted = [⟨1, 10⟩, ⟨2, 20⟩] ∧
      s.pool.q_len = 0 ∧ tasksOf s.dequeued = s.submitted := by
  refine ⟨by decide, ?_⟩
  have hsome : (run hdr (boot pool23)
      [.submit_call 1 10 hdr.POOL_NOWAIT, .submit_lock 0, .submit_call 2 20 hdr.POOL_NOWAIT,
        .submit_lock 1, .shutdown_call hdr.POOL_COMPLETE, .worker_lock 0, .worker_lock 1,
        .worker_lock 0, .worker_lock 1, .shutdown_join]).isSome = true := by decide
  obtain ⟨s, hs⟩ := Option.isSome_iff_exists.mp hsome
  have h := exactly_once_complete hdr okEnv rawPool 2 3 (by decide) (by decide) (by decide)
    (by decide) (by decide) (by decide) _ s (by decide) (by decide) hs
  have hval : (run hdr (boot pool23)
      [.submit_call 1 10 hdr.POOL_NOWAIT, .submit_lock 0, .submit_call 2 20 hdr.POOL_NOWAIT,
        .submit_lock 1, .shutdown_call hdr.POOL_COMPLETE, .worker_lock 0, .worker_lock 1,
        .worker_lock 0, .worker_lock 1, .shutdown_join]).map (fun s => (s.bees, s.submitted))
      = some ([.exited, .exited], [⟨1, 10⟩, ⟨2, 20⟩]) := by decide
  rw [hs] at hval
  simp only [Option.map_some', Option.some.injEq, Prod.mk.injEq] at hval
  have hall : ∀ w ∈ s.bees, w = WPc.exited := by
    rw [hval.1]
    decide
  exact ⟨s, hs, hval.1, hval.2, (h.2.2.2.2 hall).1, (h.2.2.2.2 hall).2⟩

/-- C3 at its failing input. On a one-worker, one-slot pool a call of submit
reads `state == ON` on line 124, shutdown with `POOL_COMPLETE` then sets `state`
to `STANDBY`, the worker finds `q_len == 0` and `state != ON` and exits, and the
call then runs lines 127-148 and enqueues; shutdown joins the worker and ends.
The call returned `POOL_SUCCESS`, every worker has exited, `POOL_DISCARD` was
never used, and the task is still queued: `q_len = 1`, nothing was dequeued. -/
theorem accepted_task_never_dequeued :
    (pthread_pool_init hdr okEnv rawPool 1 1).ret = hdr.POOL_SUCCESS ∧
    (run hdr (boot pool11)
      [.submit_call 1 10 hdr.POOL_NOWAIT, .shutdown_call hdr.POOL_COMPLETE, .worker_lock 0,
        .submit_lock 0]).map
        (fun s => (s.pool.state, s.calls.map (·.pc), s.bees, s.pool.q_len, s.submitted,
          tasksOf s.dequeued))
      = some (hdr.STANDBY, [.done hdr.POOL_SUCCESS], [.exited], 1, [⟨1, 10⟩], []) ∧
    (run hdr (boot pool11)
      [.submit_call 1 10 hdr.POOL_NOWAIT, .shutdown_call hdr.POOL_COMPLETE, .worker_lock 0,
        .submit_lock 0, .shutdown_join]).map
        (fun s => (s.pool.state, s.calls.map (·.pc), s.bees, s.pool.q_len, s.submitted,
          tasksOf s.dequeued, s.joiners))
      = some (hdr.OFF, [.done hdr.POOL_SUCCESS], [.exited], 1, [⟨1, 10⟩], [], 0) := by
  refine ⟨by decide, ?_, ?_⟩
  · rfl
  · rfl

/-! ### Submissions that race with shutdown -/

/-- C4 at its failing input. A call of submit reads `state == ON` on line 124,
shutdown with `POOL_COMPLETE` then sets `state` to `STANDBY`, and the call then
runs lines 127-148: it finds the queue not full, enqueues and returns
`POOL_SUCCESS` with `state = STANDBY`. On the pool alone: with `state = STANDBY`
the locked region enqueues when the queue has room and returns `POOL_FULL`,
not `POOL_FAIL`, when it is full and the flag is `POOL_NOWAIT`. -/
theorem submit_accepted_after_shutdown :
    (run hdr (boot pool11)
      [.submit_call 1 10 hdr.POOL_NOWAIT, .shutdown_call hdr.POOL_COMPLETE, .submit_lock 0]).map
        (fun s => (s.pool.state, s.calls.map (·.pc), s.pool.q_len, contents s.pool, s.submitted))
      = some (hdr.STANDBY, [.done hdr.POOL_SUCCESS], 1, [⟨1, 10⟩], [⟨1, 10⟩]) ∧
    (submit_locked hdr { pool11 with state := hdr.STANDBY } 1 10 hdr.POOL_NOWAIT).2
      = .returned hdr.POOL_SUCCESS ∧
    (submit_locked hdr { pool11 with state := hdr.STANDBY } 1 10 hdr.POOL_NOWAIT).1.q_len = 1 ∧
    (submit_locked hdr { pool11 with state := hdr.OFF } 1 10 hdr.POOL_WAIT).2
      = .returned hdr.POOL_SUCCESS ∧
    (submit_locked hdr { pool11 with state := hdr.STANDBY, q_len := 1 } 1 10 hdr.POOL_NOWAIT).2
      = .returned hdr.POOL_FULL ∧
    hdr.POOL_SUCCESS ≠ hdr.POOL_FAIL ∧ hdr.POOL_FULL ≠ hdr.POOL_FAIL := by
  decide

/-- After a discarding shutdown (`state = OFF`, `q_len = 0`), every run whose
submit regions start at line 127 only while `state == ON` keeps `state = OFF`
and `q_len = 0`, and no worker dequeues. -/
theorem discard_quiescent (H : Header) (hoo : H.OFF ≠ H.ON) (acts : List Action) :
    ∀ s s' : Sys, s.pool.state = H.OFF → s.pool.q_len = 0 →
      locksWhileOn H s acts = true → run H s acts = some s' →
      s'.pool.state = H.OFF ∧ s'.pool.q_len = 0 ∧ s'.dequeued = s.dequeued := by
  induction acts with
  | nil =>
    intro s s' h1 h2 _ hr
    simp only [run, Option.some.injEq] at hr
    subst hr
    exact ⟨h1, h2, rfl⟩
  | cons a as ih =>
    intro s s' h1 h2 hlk hr
    simp only [run] at hr
    cases hstep : step H s a with
    | none => simp [hstep] at hr
    | some s1 =>
      rw [hstep] at hr
      simp only [locksWhileOn, hstep, Bool.and_eq_true] at hlk
      have hnon : s.pool.state ≠ H.ON := by
        rw [h1]
        exact hoo
      have key : s1.pool.state = H.OFF ∧ s1.pool.q_len = 0 ∧ s1.dequeued = s.dequeued := by
        rcases step_effect H s s1 a hstep with ⟨e, -, d, -⟩ | ⟨f, p, -, -, -, -, -, hon⟩ |
          ⟨w, pc, -, -, e, -, d, -⟩ | ⟨w, -, -, e, -, d, -⟩ | ⟨w, -, hl, -⟩ |
          ⟨how, -, e, -, d, -⟩ | ⟨e, -, d, -⟩
        · rw [e]
          exact ⟨h1, h2, d⟩
        · rcases hon with h | ⟨i, hi⟩
          · exact absurd h hnon
          · have h := hlk.1
            rw [hi] at h
            exact absurd (of_decide_eq_true h) hnon
        · rw [e]
          exact ⟨h1, h2, d⟩
        · rw [e]
          exact ⟨h1, h2, d⟩
        · exact absurd h2 hl
        · rcases shutdown_locked_cases H s.pool how with ⟨e2, -⟩ | ⟨-, hs, -⟩ | ⟨-, hs, -⟩
          · rw [e, e2]
            exact ⟨h1, h2, d⟩
          · exact absurd h1 hs
          · exact absurd h1 hs
        · rw [e]
          exact ⟨rfl, h2, d⟩
      obtain ⟨r1, r2, r3⟩ := ih s1 s' key.1 key.2.1 hlk.2 hr
      exact ⟨r1, r2, r3.trans key.2.2⟩

/-- C5 at its failing input. A call of submit reads `state == ON` on line 124,
shutdown with `POOL_DISCARD` then clears the queue and sets `state` to `OFF`,
and the call then runs lines 127-148 and enqueues: the state reached has
`state = OFF` and `q_len = 1`; the worker's next iteration dequeues that task
instead of exiting. -/
theorem task_runs_after_discard :
    (run hdr (boot pool11)
      [.submit_call 1 10 hdr.POOL_NOWAIT, .shutdown_call hdr.POOL_DISCARD]).map
        (fun s => (s.pool.state, s.pool.q_len, s.pool.q_front))
      = some (hdr.OFF, 0, 0) ∧
    (run hdr (boot pool11)
      [.submit_call 1 10 hdr.POOL_NOWAIT, .shutdown_call hdr.POOL_DISCARD, .submit_lock 0]).map
        (fun s => (s.pool.state, s.pool.q_len, s.calls.map (·.pc)))
      = some (hdr.OFF, 1, [.done hdr.POOL_SUCCESS]) ∧
    (run hdr (boot pool11)
      [.submit_call 1 10 hdr.POOL_NOWAIT, .shutdown_call hdr.POOL_DISCARD, .submit_lock 0,
        .worker_lock 0]).map
        (fun s => (s.pool.state, s.bees, s.dequeued))
      = some (hdr.OFF, [.top], [(0, ⟨1, 10⟩)]) := by
  decide

end PthreadPool
